import Mathlib

/-
  Verification development for the real-time subscription core of an
  EVM JSON-RPC gateway (packages subscription and websocket).

  The Go source is embedded shallowly:
  - Go interface{} values that reach the filter matcher are modelled by
    the inductive GoVal (nil, string, []interface{}, []string, anything else);
  - Go maps are modelled by association lists with first-match lookup,
    in-place update and filtering delete, exactly mirroring map read,
    assignment and delete on maps whose keys never repeat;
  - hex block numbers are modelled by Nat (the code only stores them,
    compares them to the empty-string sentinel, and forwards them);
  - fallible upstream calls are modelled by Option-valued tick inputs.
-/

set_option maxHeartbeats 1000000

/-- GoVal models a Go interface{} value as discriminated by the type
switches in filter.go: nil, a string, a []interface{}, a []string, or
any other dynamic type (the default branch). -/
inductive GoVal where
  | vnull : GoVal
  | vstr (s : String) : GoVal
  | varr (xs : List GoVal) : GoVal
  | vstrs (ss : List String) : GoVal
  | vother : GoVal

/-- LogFilter from filter.go: Address is string or []string (or absent),
Topics is a list of positions, each absent/null, string, or array.
FromBlock and ToBlock are carried but not used in subscriptions. -/
structure LogFilter where
  Address : GoVal
  Topics : List GoVal
  FromBlock : String := ""
  ToBlock : String := ""

/-- Log from filter.go: an Ethereum log entry. -/
structure Log where
  Address : String
  Topics : List String
  Data : String := ""
  BlockNumber : String := ""
  BlockHash : String := ""
  TransactionHash : String := ""
  TransactionIndex : String := ""
  LogIndex : String := ""
  Removed : Bool := false
deriving DecidableEq

/-- strToLower models strings.ToLower from the Go standard library: it
lowercases every character. On the ASCII hex strings the filter code
compares, this agrees with the Go function. -/
def strToLower (s : String) : String := ⟨s.data.map Char.toLower⟩

/-- matchesAddress from filter.go lines 52-82: nil matches everything,
a string or a list is compared case-insensitively against the log
address, and any other dynamic type falls to the default branch which
returns true. -/
def LogFilter.matchesAddress (f : LogFilter) (logAddress : String) : Bool :=
  match f.Address with
  | .vnull => true
  | .vstr addr => strToLower addr == strToLower logAddress
  | .varr xs =>
      xs.any fun a =>
        match a with
        | .vstr s => strToLower s == strToLower logAddress
        | _ => false
  | .vstrs ss => ss.any fun a => strToLower a == strToLower logAddress
  | .vother => true

/-- matchesTopic from filter.go lines 109-139: nil matches any topic, a
string is compared case-insensitively, an array is OR over its string
elements, and any other dynamic type falls to the default branch which
returns false. -/
def matchesTopic (filterTopic : GoVal) (logTopic : String) : Bool :=
  match filterTopic with
  | .vnull => true
  | .vstr ft => strToLower ft == strToLower logTopic
  | .varr xs =>
      xs.any fun t =>
        match t with
        | .vstr s => strToLower s == strToLower logTopic
        | _ => false
  | .vstrs ss => ss.any fun t => strToLower t == strToLower logTopic
  | .vother => false

/-- The Go test filterTopic != nil, as the loop over exhausted log
topics uses it (filter.go lines 93-97): true exactly for nil. -/
def goIsNil (v : GoVal) : Bool :=
  match v with
  | .vnull => true
  | _ => false

/-- The indexed loop of matchesTopics from filter.go lines 91-103, as a
recursion over the two lists: a filter position beyond the log topics
fails unless it is null; a position inside the log topics must match. -/
def matchesTopicsAux : List GoVal → List String → Bool
  | [], _ => true
  | ft :: fts, [] => goIsNil ft && matchesTopicsAux fts []
  | ft :: fts, lt :: lts => matchesTopic ft lt && matchesTopicsAux fts lts

/-- matchesTopics from filter.go lines 85-106: empty filter matches, else
run the positional loop. -/
def LogFilter.matchesTopics (f : LogFilter) (logTopics : List String) : Bool :=
  if f.Topics.isEmpty then true else matchesTopicsAux f.Topics logTopics

/-- MatchesLog from filter.go lines 37-49: address check then topics
check, with early false returns modelled by Boolean conjunction. -/
def LogFilter.MatchesLog (f : LogFilter) (log : Log) : Bool :=
  f.matchesAddress log.Address && f.matchesTopics log.Topics

/-- BlockHeader from the head poller source: the simplified header for
newHeads. Only Number is inspected by the poller; the rest is forwarded
verbatim. -/
structure BlockHeader where
  Number : String
  Hash : String := ""
  ParentHash : String := ""
  Timestamp : String := ""
  Miner : String := ""
  GasLimit : String := ""
  GasUsed : String := ""
  BaseFeePerGas : String := ""
  TransactionsRoot : String := ""
  StateRoot : String := ""
  ReceiptsRoot : String := ""
deriving DecidableEq

/-- One successful tick of HeadPoller.poll (src/unnamed/part_000 lines
470-536) on which eth_getBlockByNumber returned the given header:
if there are no newHeads subscribers the poll is skipped entirely;
otherwise the header is broadcast to the newHeads kind exactly when
lastBlock is nil or its Number differs, and lastBlock is updated in
that case. The second component lists the headers handed to
broadcaster.BroadcastToType on this tick. -/
def headPollStep (lastBlock : Option BlockHeader) (subCount : Nat)
    (header : BlockHeader) : Option BlockHeader × List BlockHeader :=
  if subCount = 0 then (lastBlock, [])
  else
    let isNewBlock :=
      match lastBlock with
      | none => true
      | some lb => lb.Number != header.Number
    if isNewBlock then (some header, [header]) else (lastBlock, [])

/-- A run of successful head-poller ticks: each tick carries the
newHeads subscriber count and the fetched header. Returns the final
lastBlock state and the concatenated broadcast events. -/
def headPollRun : Option BlockHeader → List (Nat × BlockHeader) →
    Option BlockHeader × List BlockHeader
  | st, [] => (st, [])
  | st, (n, h) :: ticks =>
    let s1 := headPollStep st n h
    let s2 := headPollRun s1.1 ticks
    (s2.1, s1.2 ++ s2.2)

/-- The lastBlockNumber update and window selection of LogsPoller.poll
(src/subscription/logs_poller.go lines 118-125) on a tick whose
eth_blockNumber call succeeded with value current: fromBlock is the
stored lastBlockNumber when set (the Go empty-string sentinel is
modelled by none), else current; toBlock is current; the new
lastBlockNumber is current. Result: ((fromBlock, toBlock), new state). -/
def logsPollStep (lastBlockNumber : Option Nat) (current : Nat) :
    (Nat × Nat) × Nat :=
  ((lastBlockNumber.getD current, current), current)

/-- The (fromBlock, toBlock) windows produced by a run of successful
logs-poller ticks with the given eth_blockNumber results. -/
def logsRunWindows : Option Nat → List Nat → List (Nat × Nat)
  | _, [] => []
  | last, c :: cs =>
    (logsPollStep last c).1 :: logsRunWindows (some (logsPollStep last c).2) cs

/-- lastBlockNumber after a run of successful logs-poller ticks. -/
def logsRunLast : Option Nat → List Nat → Option Nat
  | last, [] => last
  | last, c :: cs => logsRunLast (some (logsPollStep last c).2) cs

/-- eth_getLogs treats fromBlock and toBlock as inclusive bounds, so a
window (f, t) denotes the blocks b with f ≤ b ≤ t. -/
def inWindow (b : Nat) (w : Nat × Nat) : Prop := w.1 ≤ b ∧ b ≤ w.2

/-- Per-subscription input of one logs-poller tick: the subscription id,
its parsed LogFilter, and the outcome of its eth_getLogs call (none
models any of the skip paths of the loop body in logs_poller.go lines
128-152: subscription vanished, filter parse error, or fetch error). -/
structure LogsTickSub where
  id : String
  filter : LogFilter
  fetched : Option (List Log)

/-- The notifications the loop body of LogsPoller.poll produces for one
subscription: nothing on any error (the loop continues), else one
Broadcast per fetched log that passes the local MatchesLog check, in
upstream order. -/
def logsSubNotifs (sub : LogsTickSub) : List (String × Log) :=
  match sub.fetched with
  | none => []
  | some logs => (logs.filter fun l => sub.filter.MatchesLog l).map fun l => (sub.id, l)

/-- One full tick of LogsPoller.poll with a successful eth_blockNumber
call: lastBlockNumber is advanced to current before the
per-subscription loop runs, then each subscription contributes its
notifications independently. Returns (new lastBlockNumber,
notifications in order). -/
def logsPollTick (lastBlockNumber : Option Nat) (current : Nat)
    (subs : List LogsTickSub) : Nat × List (String × Log) :=
  let step := logsPollStep lastBlockNumber current
  (step.2, (subs.map logsSubNotifs).flatten)

/-- Keys of an association list, in order. -/
def keysOf {α : Type} (m : List (String × α)) : List String := m.map Prod.fst

/-- Go map read m[k]: first entry with the key, if any. -/
def mapLookup {α : Type} : List (String × α) → String → Option α
  | [], _ => none
  | e :: rest, k => if e.1 = k then some e.2 else mapLookup rest k

/-- Go map assignment m[k] = v: update the first entry with the key in
place, else append a new entry. -/
def mapInsert {α : Type} : List (String × α) → String → α → List (String × α)
  | [], k, v => [(k, v)]
  | e :: rest, k, v => if e.1 = k then (k, v) :: rest else e :: mapInsert rest k v

/-- Go delete(m, k): drop the entries with the key. -/
def mapDelete {α : Type} (m : List (String × α)) (k : String) : List (String × α) :=
  m.filter fun e => !(e.1 == k)

/-- Go read of a map of slices: a missing key reads as the empty slice. -/
def lookupList (m : List (String × List String)) (k : String) : List String :=
  (mapLookup m k).getD []

/-- removeFromSliceValue from subscription.go lines 194-201: drop the
first occurrence of the item, keep the slice unchanged when absent. -/
def removeFromSliceValue : List String → String → List String
  | [], _ => []
  | a :: rest, item => if a = item then rest else a :: removeFromSliceValue rest item

/-- Subscription from subscription.go. The Go field Type is spelled typ
here (Type is reserved in Lean); Params is the dynamic parameter value;
CreatedAt is modelled as a number. -/
structure Subscription where
  ID : String
  typ : String
  Params : GoVal := .vnull
  ConnectionID : String
  CreatedAt : Nat := 0

/-- The newHeads subscription type constant. -/
def TypeNewHeads : String := "newHeads"

/-- The logs subscription type constant. -/
def TypeLogs : String := "logs"

/-- Registry from subscription.go lines 41-48: the four map views over
the set of subscriptions. Subscriber handles are modelled by opaque
string tokens. -/
structure Registry where
  subscriptions : List (String × Subscription)
  byType : List (String × List String)
  byConnection : List (String × List String)
  subscribers : List (String × String)

/-- NewRegistry: all views empty. -/
def Registry.new : Registry := ⟨[], [], [], []⟩

/-- Registry.Add from subscription.go lines 62-86: store the
subscription and subscriber, append the id to the type index and to the
connection index. The Go function always returns nil; the first
component is that error result. -/
def Registry.add (r : Registry) (sub : Subscription) (subscriber : String) :
    Option String × Registry :=
  (none,
   { subscriptions := mapInsert r.subscriptions sub.ID sub
     subscribers := mapInsert r.subscribers sub.ID subscriber
     byType := mapInsert r.byType sub.typ (lookupList r.byType sub.typ ++ [sub.ID])
     byConnection := mapInsert r.byConnection sub.ConnectionID
       (lookupList r.byConnection sub.ConnectionID ++ [sub.ID]) })

/-- Registry.Remove from subscription.go lines 89-116: an unknown id
returns immediately (the Go function returns nil either way); a known
id is deleted from the main maps and its first occurrence is removed
from its type and connection index slices. -/
def Registry.remove (r : Registry) (subID : String) : Registry :=
  match mapLookup r.subscriptions subID with
  | none => r
  | some sub =>
    { subscriptions := mapDelete r.subscriptions subID
      subscribers := mapDelete r.subscribers subID
      byType := mapInsert r.byType sub.typ
        (removeFromSliceValue (lookupList r.byType sub.typ) subID)
      byConnection := mapInsert r.byConnection sub.ConnectionID
        (removeFromSliceValue (lookupList r.byConnection sub.ConnectionID) subID) }

/-- The loop body of Registry.RemoveByConnection (subscription.go lines
124-133): look the subscription up, remove the id from its type index
slice when found, then delete it from the main maps. -/
def rbcBody (acc : Registry) (subID : String) : Registry :=
  match mapLookup acc.subscriptions subID with
  | some sub =>
    { acc with
      byType := mapInsert acc.byType sub.typ
        (removeFromSliceValue (lookupList acc.byType sub.typ) subID)
      subscriptions := mapDelete acc.subscriptions subID
      subscribers := mapDelete acc.subscribers subID }
  | none =>
    { acc with
      subscriptions := mapDelete acc.subscriptions subID
      subscribers := mapDelete acc.subscribers subID }

/-- Registry.RemoveByConnection from subscription.go lines 119-141:
iterate over the ids owned by the connection, then delete the
connection entry itself. -/
def Registry.removeByConnection (r : Registry) (connectionID : String) : Registry :=
  let subIDs := lookupList r.byConnection connectionID
  let done := subIDs.foldl rbcBody r
  { done with byConnection := mapDelete done.byConnection connectionID }

/-- Deleting a connection entry from the byConnection index, the final
step of RemoveByConnection and the trailing step of the equivalent
remove-each sequence. -/
def Registry.dropConnEntry (r : Registry) (connectionID : String) : Registry :=
  { r with byConnection := mapDelete r.byConnection connectionID }

/-- Registry.Count from subscription.go lines 173-177: len of the main
map. -/
def Registry.count (r : Registry) : Nat := r.subscriptions.length

/-- Registry.CountByType from subscription.go lines 180-184. -/
def Registry.countByType (r : Registry) (subType : String) : Nat :=
  (lookupList r.byType subType).length

/-- Registry.CountByConnection from subscription.go lines 187-191. -/
def Registry.countByConnection (r : Registry) (connectionID : String) : Nat :=
  (lookupList r.byConnection connectionID).length

/-- Sum over all types present in the byType index of CountByType. -/
def Registry.sumCountByType (r : Registry) : Nat :=
  (r.byType.map fun e => e.2.length).sum

/-- Sum over all connections present in the byConnection index of
CountByConnection. -/
def Registry.sumCountByConnection (r : Registry) : Nat :=
  (r.byConnection.map fun e => e.2.length).sum

/-- Manager.Unsubscribe from subscription.go lines 304-316: false when
the id is unknown, else Remove and true. -/
def managerUnsubscribe (r : Registry) (subID : String) : Bool × Registry :=
  match mapLookup r.subscriptions subID with
  | none => (false, r)
  | some _ => (true, r.remove subID)

/-- The websocket server configuration fields read by Server.Upgrade
(src/unnamed/part_003): the enabled toggle and the per-network
connection cap. -/
structure WsConfig where
  Enabled : Bool
  MaxConnectionsPerNetwork : Nat

/-- Observable outcome of one Server.Upgrade call: whether the call
returned an error, whether an HTTP-layer error response was written,
whether the WebSocket upgrade was attempted, and whether a new
connection was registered with the manager. -/
structure UpgradeRun where
  returnedError : Bool
  httpErrorSent : Bool
  upgradeAttempted : Bool
  connectionRegistered : Bool
deriving DecidableEq

/-- Server.Upgrade from src/unnamed/part_003 lines 54-101: reject with
an HTTP error when the websocket path is disabled; reject with an HTTP
error when the network manager already holds at least
MaxConnectionsPerNetwork connections; only then attempt the upgrade,
and register the connection exactly when the upgrade succeeds.
connCount abstracts manager.ConnectionCount() and upgradeOk abstracts
success of upgrader.Upgrade. -/
def serverUpgrade (cfg : WsConfig) (connCount : Nat) (upgradeOk : Bool) : UpgradeRun :=
  if !cfg.Enabled then
    { returnedError := true, httpErrorSent := true
      upgradeAttempted := false, connectionRegistered := false }
  else if cfg.MaxConnectionsPerNetwork ≤ connCount then
    { returnedError := true, httpErrorSent := true
      upgradeAttempted := false, connectionRegistered := false }
  else if upgradeOk then
    { returnedError := false, httpErrorSent := false
      upgradeAttempted := true, connectionRegistered := true }
  else
    { returnedError := true, httpErrorSent := false
      upgradeAttempted := true, connectionRegistered := false }

/-- Pointwise case-insensitive equality of two topic lists: same length,
entries equal up to letter case. -/
def strsCaseEq : List String → List String → Bool
  | [], [] => true
  | a :: as, b :: bs => (strToLower a == strToLower b) && strsCaseEq as bs
  | _, _ => false

mutual

/-- Two dynamic values equal up to letter case of the strings inside
them: same shape, strings related by strToLower. -/
def govalCaseEq : GoVal → GoVal → Bool
  | .vnull, .vnull => true
  | .vstr s, .vstr t => strToLower s == strToLower t
  | .varr xs, .varr ys => govalListCaseEq xs ys
  | .vstrs ss, .vstrs ts => strsCaseEq ss ts
  | .vother, .vother => true
  | _, _ => false

/-- Pointwise govalCaseEq on lists of dynamic values. -/
def govalListCaseEq : List GoVal → List GoVal → Bool
  | [], [] => true
  | x :: xs, y :: ys => govalCaseEq x y && govalListCaseEq xs ys
  | _, _ => false

end

/-- Two log filters equal up to letter case of their address and topic
strings. -/
def FilterCaseEq (f g : LogFilter) : Bool :=
  govalCaseEq f.Address g.Address && govalListCaseEq f.Topics g.Topics

/-- Two logs equal up to letter case of their address and topics. -/
def LogCaseEq (r q : Log) : Bool :=
  (strToLower r.Address == strToLower q.Address) && strsCaseEq r.Topics q.Topics

/-- Number of maximal runs of consecutive equal values in a list. -/
def chunksCount : List String → Nat
  | [] => 0
  | [_] => 1
  | a :: b :: l => (if a = b then 0 else 1) + chunksCount (b :: l)

/-- All id occurrences across the slices of an index map, in order. -/
def joinVals (m : List (String × List String)) : List String :=
  (m.map Prod.snd).flatten

/-- The registry well-formedness invariant that every state reachable
from the empty registry satisfies: the three map views have distinct
keys, ids absent from the main map occur in no index slice, and every
stored subscription id occurs exactly once in its own type slice and
once in its own connection slice and nowhere else. -/
structure RegInv (r : Registry) : Prop where
  subsNodup : (keysOf r.subscriptions).Nodup
  typeNodup : (keysOf r.byType).Nodup
  connNodup : (keysOf r.byConnection).Nodup
  typeFree : ∀ i, mapLookup r.subscriptions i = none →
    ∀ t, (lookupList r.byType t).count i = 0
  connFree : ∀ i, mapLookup r.subscriptions i = none →
    ∀ c, (lookupList r.byConnection c).count i = 0
  typeLoc : ∀ i sub, mapLookup r.subscriptions i = some sub →
    ∀ t, (lookupList r.byType t).count i = if t = sub.typ then 1 else 0
  connLoc : ∀ i sub, mapLookup r.subscriptions i = some sub →
    ∀ c, (lookupList r.byConnection c).count i = if c = sub.ConnectionID then 1 else 0

/-- One registry operation of the kind the spec property quantifies
over: Add, Remove, or RemoveByConnection. -/
inductive RegOp where
  | add (sub : Subscription) (subscriber : String) : RegOp
  | remove (subID : String) : RegOp
  | removeByConn (connectionID : String) : RegOp

/-- Apply one operation to a registry. -/
def applyOp (r : Registry) : RegOp → Registry
  | .add sub sbr => (r.add sub sbr).2
  | .remove i => r.remove i
  | .removeByConn c => r.removeByConnection c

/-- The subscription ids introduced by the Add operations of a
sequence, in order. -/
def addIds : List RegOp → List String
  | [] => []
  | .add sub _ :: ops => sub.ID :: addIds ops
  | .remove _ :: ops => addIds ops
  | .removeByConn _ :: ops => addIds ops

theorem strsAny_congr (L : String) :
    ∀ (ss ts : List String), strsCaseEq ss ts = true →
    (ss.any fun a => strToLower a == L) = (ts.any fun a => strToLower a == L) := by
  intro ss
  induction ss with
  | nil => intro ts h; cases ts <;> simp [strsCaseEq] at h ⊢
  | cons a as ih =>
    intro ts h
    cases ts with
    | nil => simp [strsCaseEq] at h
    | cons b bs =>
      rw [strsCaseEq, Bool.and_eq_true] at h
      rw [List.any_cons, List.any_cons, ih bs h.2, beq_iff_eq.mp h.1]

theorem varrAny_congr (L : String) :
    ∀ (xs ys : List GoVal), govalListCaseEq xs ys = true →
    (xs.any fun a => match a with | .vstr s => strToLower s == L | _ => false) =
    (ys.any fun a => match a with | .vstr s => strToLower s == L | _ => false) := by
  intro xs
  induction xs with
  | nil => intro ys h; cases ys <;> simp [govalListCaseEq] at h ⊢
  | cons x xs ih =>
    intro ys h
    cases ys with
    | nil => simp [govalListCaseEq] at h
    | cons y ys' =>
      rw [govalListCaseEq, Bool.and_eq_true] at h
      rw [List.any_cons, List.any_cons, ih ys' h.2]
      cases x <;> cases y <;> simp [govalCaseEq] at h ⊢
      rw [h.1]

theorem matchesTopic_congr (ft gt : GoVal) (lt lt' : String)
    (h : govalCaseEq ft gt = true) (hl : strToLower lt = strToLower lt') :
    matchesTopic ft lt = matchesTopic gt lt' := by
  cases ft <;> cases gt <;> simp [govalCaseEq] at h <;> rw [matchesTopic, matchesTopic]
  case vstr.vstr s t => rw [h, hl]
  case varr.varr xs ys => rw [hl, varrAny_congr (strToLower lt') xs ys h]
  case vstrs.vstrs ss ts => rw [hl, strsAny_congr (strToLower lt') ss ts h]

theorem goIsNil_congr (ft gt : GoVal) (h : govalCaseEq ft gt = true) :
    goIsNil ft = goIsNil gt := by
  cases ft <;> cases gt <;> simp [govalCaseEq, goIsNil] at h ⊢

theorem matchesTopicsAux_congr :
    ∀ (fts gts : List GoVal) (lts lts' : List String),
    govalListCaseEq fts gts = true → strsCaseEq lts lts' = true →
    matchesTopicsAux fts lts = matchesTopicsAux gts lts' := by
  intro fts
  induction fts with
  | nil =>
    intro gts lts lts' h _
    cases gts with
    | nil => simp [matchesTopicsAux]
    | cons gt gts' => simp [govalListCaseEq] at h
  | cons ft fts ih =>
    intro gts lts lts' h hl
    cases gts with
    | nil => simp [govalListCaseEq] at h
    | cons gt gts' =>
      rw [govalListCaseEq, Bool.and_eq_true] at h
      cases lts with
      | nil =>
        cases lts' with
        | nil =>
          simp only [matchesTopicsAux]
          rw [ih gts' [] [] h.2 rfl, goIsNil_congr ft gt h.1]
        | cons b bs => simp [strsCaseEq] at hl
      | cons a as =>
        cases lts' with
        | nil => simp [strsCaseEq] at hl
        | cons b bs =>
          rw [strsCaseEq, Bool.and_eq_true] at hl
          simp only [matchesTopicsAux]
          rw [ih gts' as bs h.2 hl.2,
            matchesTopic_congr ft gt a b h.1 (beq_iff_eq.mp hl.1)]

theorem matchesAddress_congr (f g : LogFilter) (a b : String)
    (h : govalCaseEq f.Address g.Address = true) (ha : strToLower a = strToLower b) :
    f.matchesAddress a = g.matchesAddress b := by
  rw [LogFilter.matchesAddress, LogFilter.matchesAddress]
  cases hA : f.Address <;> cases hB : g.Address <;> rw [hA, hB] at h <;>
    simp [govalCaseEq] at h ⊢
  case vstr.vstr s t => rw [h, ha]
  case varr.varr xs ys => rw [ha, varrAny_congr (strToLower b) xs ys h]
  case vstrs.vstrs ss ts => rw [ha, strsAny_congr (strToLower b) ss ts h]

theorem matchesTopics_congr (f g : LogFilter) (lts lts' : List String)
    (h : govalListCaseEq f.Topics g.Topics = true) (hl : strsCaseEq lts lts' = true) :
    f.matchesTopics lts = g.matchesTopics lts' := by
  rw [LogFilter.matchesTopics, LogFilter.matchesTopics]
  have hemp : f.Topics.isEmpty = g.Topics.isEmpty := by
    cases hT : f.Topics <;> cases hT' : g.Topics <;> rw [hT, hT'] at h <;>
      simp [govalListCaseEq] at h ⊢
  rw [hemp, matchesTopicsAux_congr f.Topics g.Topics lts lts' h hl]

/-- C3: For every LogFilter f and Log r, MatchesLog is invariant under
changing the letter case of the hex strings of the log address and
topics and of the strings inside the filter, and it is true whenever
the filter has no address and no topics. -/
theorem logFilter_matches_case_insensitive :
    (∀ (f g : LogFilter) (r q : Log), FilterCaseEq f g = true → LogCaseEq r q = true →
      f.MatchesLog r = g.MatchesLog q) ∧
    (∀ (f : LogFilter) (r : Log), f.Address = GoVal.vnull → f.Topics = [] →
      f.MatchesLog r = true) := by
  constructor
  · intro f g r q hf hr
    rw [FilterCaseEq, Bool.and_eq_true] at hf
    rw [LogCaseEq, Bool.and_eq_true] at hr
    rw [LogFilter.MatchesLog, LogFilter.MatchesLog,
      matchesAddress_congr f g r.Address q.Address hf.1 (beq_iff_eq.mp hr.1),
      matchesTopics_congr f g r.Topics q.Topics hf.2 hr.2]
  · intro f r hA hT
    simp [LogFilter.MatchesLog, LogFilter.matchesAddress, LogFilter.matchesTopics, hA, hT]

theorem logFilter_matches_case_insensitive_witness :
    FilterCaseEq ⟨GoVal.vstr "0xAB", [GoVal.varr [GoVal.vstr "0xT1"]], "", ""⟩
        ⟨GoVal.vstr "0xab", [GoVal.varr [GoVal.vstr "0xt1"]], "", ""⟩ = true ∧
    LogCaseEq ⟨"0xaB", ["0xT1"], "", "", "", "", "", "", false⟩
        ⟨"0xAb", ["0xt1"], "", "", "", "", "", "", false⟩ = true ∧
    LogFilter.MatchesLog ⟨GoVal.vstr "0xAB", [GoVal.varr [GoVal.vstr "0xT1"]], "", ""⟩
        ⟨"0xaB", ["0xT1"], "", "", "", "", "", "", false⟩ =
      LogFilter.MatchesLog ⟨GoVal.vstr "0xab", [GoVal.varr [GoVal.vstr "0xt1"]], "", ""⟩
        ⟨"0xAb", ["0xt1"], "", "", "", "", "", "", false⟩ ∧
    LogFilter.MatchesLog ⟨GoVal.vnull, [], "", ""⟩
        ⟨"0x1", ["0xa"], "", "", "", "", "", "", false⟩ = true :=
  ⟨by decide, by decide,
   logFilter_matches_case_insensitive.1 _ _ _ _ (by decide) (by decide),
   logFilter_matches_case_insensitive.2 _ _ rfl rfl⟩

theorem matchesTopicsAux_of_vother :
    ∀ (fts : List GoVal) (lts : List String), GoVal.vother ∈ fts →
    matchesTopicsAux fts lts = false := by
  intro fts
  induction fts with
  | nil => intro lts h; simp at h
  | cons ft fts ih =>
    intro lts h
    rcases List.mem_cons.mp h with h1 | h2
    · cases h1
      cases lts with
      | nil => simp [matchesTopicsAux, goIsNil]
      | cons lt lts' => simp [matchesTopicsAux, matchesTopic]
    · cases lts with
      | nil => simp [matchesTopicsAux, ih [] h2]
      | cons lt lts' => simp [matchesTopicsAux, ih lts' h2]

/-- C10: malformed filter values are handled asymmetrically: an Address
of a dynamic type other than nil, string or list matches every log
address (treated as no address filter), while a topic position of such
a type matches no topic, so a filter carrying one matches no log at
all. -/
theorem filter_malformed_asymmetry :
    (∀ (f : LogFilter) (a : String), f.Address = GoVal.vother →
      f.matchesAddress a = true) ∧
    (∀ (t : String), matchesTopic GoVal.vother t = false) ∧
    (∀ (f : LogFilter) (r : Log), GoVal.vother ∈ f.Topics →
      f.MatchesLog r = false) := by
  refine ⟨?_, ?_, ?_⟩
  · intro f a hA
    rw [LogFilter.matchesAddress, hA]
  · intro t
    rfl
  · intro f r h
    have hfalse : f.matchesTopics r.Topics = false := by
      have hne : f.Topics.isEmpty = false := by
        cases hT : f.Topics with
        | nil => rw [hT] at h; simp at h
        | cons a l => rfl
      rw [LogFilter.matchesTopics, hne]
      simp [matchesTopicsAux_of_vother f.Topics r.Topics h]
    rw [LogFilter.MatchesLog, hfalse, Bool.and_false]

theorem filter_malformed_asymmetry_witness :
    LogFilter.Address ⟨GoVal.vother, [], "", ""⟩ = GoVal.vother ∧
    LogFilter.matchesAddress ⟨GoVal.vother, [], "", ""⟩ "0xa" = true ∧
    matchesTopic GoVal.vother "0xt" = false ∧
    GoVal.vother ∈ ([GoVal.vother] : List GoVal) ∧
    LogFilter.MatchesLog ⟨GoVal.vnull, [GoVal.vother], "", ""⟩
      ⟨"0xa", ["0xt"], "", "", "", "", "", "", false⟩ = false :=
  ⟨rfl, filter_malformed_asymmetry.1 _ "0xa" rfl,
   filter_malformed_asymmetry.2.1 "0xt",
   List.Mem.head _,
   filter_malformed_asymmetry.2.2 _ _ (List.Mem.head _)⟩

/-- C9: Server.Upgrade rejects with an error and an HTTP-layer error
response, without attempting the WebSocket upgrade and without
registering a connection, whenever the websocket path is disabled or
the connection count has reached MaxConnectionsPerNetwork; the limit
check runs before the upgrade is performed. -/
theorem server_upgrade_rejects_before_upgrade :
    ∀ (cfg : WsConfig) (connCount : Nat) (upgradeOk : Bool),
    (cfg.Enabled = false ∨ cfg.MaxConnectionsPerNetwork ≤ connCount) →
    serverUpgrade cfg connCount upgradeOk = ⟨true, true, false, false⟩ := by
  intro cfg n u h
  rcases h with h | h
  · simp [serverUpgrade, h]
  · rw [serverUpgrade]
    cases hE : cfg.Enabled
    · simp
    · simp [h]

theorem server_upgrade_rejects_before_upgrade_witness :
    ((WsConfig.mk false 5).Enabled = false ∨
      (WsConfig.mk false 5).MaxConnectionsPerNetwork ≤ 0) ∧
    serverUpgrade ⟨false, 5⟩ 0 true = ⟨true, true, false, false⟩ ∧
    ((WsConfig.mk true 3).Enabled = false ∨
      (WsConfig.mk true 3).MaxConnectionsPerNetwork ≤ 3) ∧
    serverUpgrade ⟨true, 3⟩ 3 true = ⟨true, true, false, false⟩ :=
  ⟨Or.inl rfl,
   server_upgrade_rejects_before_upgrade ⟨false, 5⟩ 0 true (Or.inl rfl),
   Or.inr (by decide),
   server_upgrade_rejects_before_upgrade ⟨true, 3⟩ 3 true (Or.inr (by decide))⟩

theorem headPollRun_some_len :
    ∀ (ticks : List (Nat × BlockHeader)) (hb : BlockHeader),
    (∀ t ∈ ticks, 1 ≤ t.1) →
    (headPollRun (some hb) ticks).2.length + 1 =
      chunksCount (hb.Number :: ticks.map fun t => t.2.Number) := by
  intro ticks
  induction ticks with
  | nil => intro hb _; rfl
  | cons t ticks ih =>
    intro hb hc
    obtain ⟨n, h⟩ := t
    have hn : ¬ n = 0 := by
      have := hc (n, h) (List.mem_cons_self _ _)
      omega
    have htail : ∀ t ∈ ticks, 1 ≤ t.1 := fun t ht => hc t (List.mem_cons_of_mem _ ht)
    rw [List.map_cons, chunksCount]
    by_cases heq : hb.Number = h.Number
    · have hstep : headPollStep (some hb) n h = (some hb, []) := by
        rw [headPollStep, if_neg hn]
        simp [heq]
      rw [headPollRun]
      simp only [hstep, List.nil_append, if_pos heq, Nat.zero_add]
      rw [ih hb htail, heq]
    · have hstep : headPollStep (some hb) n h = (some h, [h]) := by
        rw [headPollStep, if_neg hn]
        simp [heq]
      rw [headPollRun]
      simp only [hstep, List.singleton_append, List.length_cons, if_neg heq]
      rw [ih h htail]
      omega

theorem headPollRun_none_len :
    ∀ (ticks : List (Nat × BlockHeader)),
    (∀ t ∈ ticks, 1 ≤ t.1) →
    (headPollRun none ticks).2.length =
      chunksCount (ticks.map fun t => t.2.Number) := by
  intro ticks hc
  cases ticks with
  | nil => rfl
  | cons t ticks =>
    obtain ⟨n, h⟩ := t
    have hn : ¬ n = 0 := by
      have := hc (n, h) (List.mem_cons_self _ _)
      omega
    have hstep : headPollStep none n h = (some h, [h]) := by
      rw [headPollStep, if_neg hn]
      rfl
    rw [headPollRun]
    simp only [hstep, List.singleton_append, List.length_cons, List.map_cons]
    have := headPollRun_some_len ticks h fun t ht => hc t (List.mem_cons_of_mem _ ht)
    omega

/-- C2 counterexample: on the successful tick sequence observing block
numbers 0x1, 0x2, 0x1 (one newHeads subscriber throughout, a reorg to a
lower head), the poller broadcasts three times while only two distinct
number values are observed, so it does not emit exactly once per
distinct number value. -/
theorem headPoller_distinct_emit_cex :
    (headPollRun none
      [(1, ⟨"0x1", "", "", "", "", "", "", "", "", "", ""⟩),
       (1, ⟨"0x2", "", "", "", "", "", "", "", "", "", ""⟩),
       (1, ⟨"0x1", "", "", "", "", "", "", "", "", "", ""⟩)]).2.length = 3 ∧
    (["0x1", "0x2", "0x1"].dedup).length = 2 := by
  constructor
  · rfl
  · decide

/-- C2 amended: with at least one newHeads subscriber on every tick,
the poller broadcasts the fetched header exactly when lastBlock is
unset or the fetched Number differs from the stored Number, storing the
header in that case and leaving the state alone otherwise; over a whole
run it therefore emits exactly once per maximal run of consecutive
equal Number values observed (rather than once per distinct value). -/
theorem headPoller_emit_per_run_amended :
    (∀ (st : Option BlockHeader) (n : Nat) (h : BlockHeader), 1 ≤ n →
      ((st = none ∨ ∃ lb, st = some lb ∧ lb.Number ≠ h.Number) →
        headPollStep st n h = (some h, [h])) ∧
      (∀ lb, st = some lb → lb.Number = h.Number → headPollStep st n h = (st, []))) ∧
    (∀ (ticks : List (Nat × BlockHeader)), (∀ t ∈ ticks, 1 ≤ t.1) →
      (headPollRun none ticks).2.length =
        chunksCount (ticks.map fun t => t.2.Number)) := by
  constructor
  · intro st n h hn
    have hn0 : ¬ n = 0 := by omega
    constructor
    · intro hnew
      rcases hnew with h1 | ⟨lb, h1, h2⟩
      · subst h1
        rw [headPollStep, if_neg hn0]
        rfl
      · subst h1
        rw [headPollStep, if_neg hn0]
        simp [h2]
    · intro lb h1 h2
      subst h1
      rw [headPollStep, if_neg hn0]
      simp [h2]
  · exact headPollRun_none_len

theorem headPoller_emit_per_run_amended_witness :
    (1 : Nat) ≤ 1 ∧
    (some (⟨"0x1", "", "", "", "", "", "", "", "", "", ""⟩ : BlockHeader) = none ∨
      ∃ lb, (some (⟨"0x1", "", "", "", "", "", "", "", "", "", ""⟩ : BlockHeader)) = some lb ∧
        lb.Number ≠ "0x2") ∧
    headPollStep (some ⟨"0x1", "", "", "", "", "", "", "", "", "", ""⟩) 1
        ⟨"0x2", "", "", "", "", "", "", "", "", "", ""⟩ =
      (some ⟨"0x2", "", "", "", "", "", "", "", "", "", ""⟩,
       [⟨"0x2", "", "", "", "", "", "", "", "", "", ""⟩]) ∧
    (headPollRun none
      [(1, ⟨"0x1", "", "", "", "", "", "", "", "", "", ""⟩),
       (1, ⟨"0x1", "", "", "", "", "", "", "", "", "", ""⟩),
       (2, ⟨"0x2", "", "", "", "", "", "", "", "", "", ""⟩)]).2.length =
      chunksCount ["0x1", "0x1", "0x2"] :=
  ⟨le_refl 1,
   Or.inr ⟨⟨"0x1", "", "", "", "", "", "", "", "", "", ""⟩, rfl, by decide⟩,
   (headPoller_emit_per_run_amended.1 (some ⟨"0x1", "", "", "", "", "", "", "", "", "", ""⟩)
      1 ⟨"0x2", "", "", "", "", "", "", "", "", "", ""⟩ (le_refl 1)).1
     (Or.inr ⟨⟨"0x1", "", "", "", "", "", "", "", "", "", ""⟩, rfl, by decide⟩),
   headPoller_emit_per_run_amended.2
     [(1, ⟨"0x1", "", "", "", "", "", "", "", "", "", ""⟩),
      (1, ⟨"0x1", "", "", "", "", "", "", "", "", "", ""⟩),
      (2, ⟨"0x2", "", "", "", "", "", "", "", "", "", ""⟩)]
     (by intro t ht; fin_cases ht <;> decide)⟩

/-- C1 counterexample: on the successful run observing block numbers 5,
7, 9 from a fresh start, the windows are (5,5), (5,7), (7,9); ignoring
the startup window, block 7 lies in both remaining windows under the
inclusive eth_getLogs bounds, so the windows are not non-overlapping.
Moreover after the run 5, 5 (the chain did not advance between ticks)
lastBlockNumber is 5 and the next query would use upper bound 5, so the
stored block number does not strictly precede the next upper bound. -/
theorem logsPoller_windows_overlap_cex :
    logsRunWindows none [5, 7, 9] = [(5, 5), (5, 7), (7, 9)] ∧
    inWindow 7 (5, 7) ∧ inWindow 7 (7, 9) ∧
    logsRunLast none [5, 5] = some 5 ∧
    (logsPollStep (some 5) 5).1.2 = 5 ∧ ¬ (5 : Nat) < 5 := by
  refine ⟨rfl, ⟨by decide, by decide⟩, ⟨by decide, by decide⟩, rfl, rfl, by decide⟩

theorem logsRunWindows_chain :
    ∀ (cs : List Nat) (l : Option Nat),
    List.Chain' (fun w1 w2 : Nat × Nat => w2.1 = w1.2) (logsRunWindows l cs) := by
  intro cs
  induction cs with
  | nil => intro l; simp [logsRunWindows]
  | cons c cs ih =>
    intro l
    cases cs with
    | nil => simp [logsRunWindows]
    | cons c' rest =>
      have htail := ih (some c)
      rw [logsRunWindows]
      rw [logsRunWindows] at htail ⊢
      exact List.chain'_cons.mpr ⟨rfl, htail⟩

theorem logsRunWindows_cover :
    ∀ (cs : List Nat) (l0 b : Nat) (hne : cs ≠ []),
    List.Chain' (· ≤ ·) (l0 :: cs) → l0 ≤ b → b ≤ cs.getLast hne →
    ∃ w ∈ logsRunWindows (some l0) cs, inWindow b w := by
  intro cs
  induction cs with
  | nil => intro l0 b hne; exact absurd rfl hne
  | cons c rest ih =>
    intro l0 b hne hchain hlo hhi
    by_cases hbc : b ≤ c
    · refine ⟨(l0, c), List.mem_cons_self _ _, hlo, hbc⟩
    · have hrest : rest ≠ [] := by
        intro hr
        subst hr
        exact hbc hhi
      have hchain' : List.Chain' (· ≤ ·) (c :: rest) := hchain.tail
      have hcb : c ≤ b := le_of_not_le hbc
      have hhi' : b ≤ rest.getLast hrest := by
        rw [List.getLast_cons hrest] at hhi
        exact hhi
      obtain ⟨w, hw, hbw⟩ := ih c b hrest hchain' hcb hhi'
      exact ⟨w, List.mem_cons_of_mem _ hw, hbw⟩

/-- C1 amended: on a tick whose eth_blockNumber call succeeds with value
current, the window is (lastBlockNumber, current) when lastBlockNumber
is set and (current, current) on the startup tick, and lastBlockNumber
becomes current. Consecutive windows are adjacent rather than disjoint:
each window after the first starts exactly at the previous window
upper bound, so under the inclusive eth_getLogs bounds consecutive
windows overlap in that one shared boundary block. For a non-decreasing
run of block numbers the windows after the startup tick jointly cover
every block from the initial lastBlockNumber up to the last observed
number, and the stored lastBlockNumber never exceeds the next query
upper bound, with equality exactly when the chain did not advance. -/
theorem logsPoller_windows_amended :
    (∀ (last : Option Nat) (current : Nat),
      logsPollStep last current = ((last.getD current, current), current)) ∧
    (∀ (c : Nat) (cs : List Nat),
      logsRunWindows none (c :: cs) = (c, c) :: logsRunWindows (some c) cs) ∧
    (∀ (cs : List Nat) (l : Option Nat),
      List.Chain' (fun w1 w2 : Nat × Nat => w2.1 = w1.2) (logsRunWindows l cs)) ∧
    (∀ (cs : List Nat) (l0 b : Nat) (hne : cs ≠ []),
      List.Chain' (· ≤ ·) (l0 :: cs) → l0 ≤ b → b ≤ cs.getLast hne →
      ∃ w ∈ logsRunWindows (some l0) cs, inWindow b w) ∧
    (∀ (c c' : Nat), c ≤ c' →
      c ≤ (logsPollStep (some c) c').1.2 ∧
      ((logsPollStep (some c) c').1.1 = (logsPollStep (some c) c').1.2 ↔ c = c')) :=
  ⟨fun _ _ => rfl,
   fun _ _ => rfl,
   logsRunWindows_chain,
   logsRunWindows_cover,
   fun c c' hcc => ⟨hcc, Iff.rfl⟩⟩

theorem logsPoller_windows_amended_witness :
    ([7, 9] : List Nat) ≠ [] ∧
    List.Chain' (· ≤ ·) [5, 7, 9] ∧ (5 : Nat) ≤ 8 ∧
    (8 : Nat) ≤ ([7, 9] : List Nat).getLast (by decide) ∧
    (∃ w ∈ logsRunWindows (some 5) [7, 9], inWindow 8 w) ∧
    (5 : Nat) ≤ 7 ∧ (5 : Nat) ≤ (logsPollStep (some 5) 7).1.2 ∧
    ((logsPollStep (some 5) 7).1.1 = (logsPollStep (some 5) 7).1.2 ↔ (5 : Nat) = 7) :=
  ⟨by decide, by simp [List.chain'_cons], by decide, by decide,
   logsPoller_windows_amended.2.2.2.1 [7, 9] 5 8 (by decide)
     (by simp [List.chain'_cons]) (by decide) (by decide),
   by decide,
   (logsPoller_windows_amended.2.2.2.2 5 7 (by decide)).1,
   (logsPoller_windows_amended.2.2.2.2 5 7 (by decide)).2⟩

/-- C8: on a logs-poller tick whose eth_blockNumber call succeeds,
lastBlockNumber becomes the current block number independently of the
per-subscription eth_getLogs outcomes (it is assigned before the loop
runs), a failed per-subscription fetch contributes no notifications
(transient poll errors are never surfaced to clients), and the next
tick polls from the current number onward, so the failed window is
skipped rather than retried. -/
theorem logsPoller_advances_before_fetch :
    (∀ (last : Option Nat) (current : Nat) (subs : List LogsTickSub),
      (logsPollTick last current subs).1 = current) ∧
    (∀ (last : Option Nat) (current : Nat) (subs subs' : List LogsTickSub),
      (logsPollTick last current subs).1 = (logsPollTick last current subs').1) ∧
    (∀ (sub : LogsTickSub), sub.fetched = none → logsSubNotifs sub = []) ∧
    (∀ (last : Option Nat) (current c' : Nat) (subs : List LogsTickSub),
      logsPollStep (some (logsPollTick last current subs).1) c' = ((current, c'), c')) := by
  refine ⟨fun _ _ _ => rfl, fun _ _ _ _ => rfl, ?_, fun _ _ _ _ => rfl⟩
  intro sub h
  rw [logsSubNotifs, h]

theorem logsPoller_advances_before_fetch_witness :
    LogsTickSub.fetched ⟨"0xs", ⟨GoVal.vnull, [], "", ""⟩, none⟩ = none ∧
    logsSubNotifs ⟨"0xs", ⟨GoVal.vnull, [], "", ""⟩, none⟩ = [] ∧
    (logsPollTick (some 4) 9 [⟨"0xs", ⟨GoVal.vnull, [], "", ""⟩, none⟩]).1 = 9 ∧
    logsPollStep (some (logsPollTick (some 4) 9
      [⟨"0xs", ⟨GoVal.vnull, [], "", ""⟩, none⟩]).1) 11 = ((9, 11), 11) :=
  ⟨rfl,
   logsPoller_advances_before_fetch.2.2.1 ⟨"0xs", ⟨GoVal.vnull, [], "", ""⟩, none⟩ rfl,
   logsPoller_advances_before_fetch.1 (some 4) 9 [⟨"0xs", ⟨GoVal.vnull, [], "", ""⟩, none⟩],
   logsPoller_advances_before_fetch.2.2.2 (some 4) 9 11
     [⟨"0xs", ⟨GoVal.vnull, [], "", ""⟩, none⟩]⟩

theorem keysOf_cons {α : Type} (e : String × α) (m : List (String × α)) :
    keysOf (e :: m) = e.1 :: keysOf m := rfl

theorem mapLookup_eq_none_iff {α : Type} :
    ∀ (m : List (String × α)) (k : String), mapLookup m k = none ↔ k ∉ keysOf m := by
  intro m k
  induction m with
  | nil => simp [mapLookup, keysOf]
  | cons e rest ih =>
    rw [mapLookup, keysOf_cons]
    by_cases h : e.1 = k
    · simp [h]
    · rw [if_neg h, ih]
      simp only [List.mem_cons, not_or]
      constructor
      · intro h1
        exact ⟨fun he => h he.symm, h1⟩
      · intro h1
        exact h1.2

theorem mapLookup_mapInsert_self {α : Type} :
    ∀ (m : List (String × α)) (k : String) (v : α),
    mapLookup (mapInsert m k v) k = some v := by
  intro m k v
  induction m with
  | nil => simp [mapInsert, mapLookup]
  | cons e rest ih =>
    rw [mapInsert]
    by_cases h : e.1 = k
    · rw [if_pos h, mapLookup, if_pos rfl]
    · rw [if_neg h, mapLookup, if_neg h, ih]

theorem mapLookup_mapInsert_ne {α : Type} :
    ∀ (m : List (String × α)) (k k' : String) (v : α), k ≠ k' →
    mapLookup (mapInsert m k v) k' = mapLookup m k' := by
  intro m k k' v hkk
  induction m with
  | nil => simp [mapInsert, mapLookup, hkk]
  | cons e rest ih =>
    rw [mapInsert]
    by_cases h : e.1 = k
    · rw [if_pos h, mapLookup, if_neg hkk, mapLookup, if_neg]
      rw [h]
      exact hkk
    · rw [if_neg h, mapLookup, mapLookup]
      by_cases h2 : e.1 = k'
      · rw [if_pos h2, if_pos h2]
      · rw [if_neg h2, if_neg h2, ih]

theorem mapLookup_mapDelete_self {α : Type} :
    ∀ (m : List (String × α)) (k : String), mapLookup (mapDelete m k) k = none := by
  intro m k
  induction m with
  | nil => rfl
  | cons e rest ih =>
    by_cases h : e.1 = k
    · have hb : (e.1 == k) = true := beq_iff_eq.mpr h
      simp only [mapDelete, List.filter, hb, Bool.not_true]
      exact ih
    · have hb : (e.1 == k) = false := beq_eq_false_iff_ne.mpr h
      simp only [mapDelete, List.filter, hb, Bool.not_false]
      rw [mapLookup, if_neg h]
      exact ih

theorem mapLookup_mapDelete_ne {α : Type} :
    ∀ (m : List (String × α)) (k k' : String), k ≠ k' →
    mapLookup (mapDelete m k) k' = mapLookup m k' := by
  intro m k k' hkk
  induction m with
  | nil => rfl
  | cons e rest ih =>
    by_cases h : e.1 = k
    · have hb : (e.1 == k) = true := beq_iff_eq.mpr h
      simp only [mapDelete, List.filter, hb, Bool.not_true]
      rw [mapLookup, if_neg]
      · exact ih
      · rw [h]
        exact hkk
    · have hb : (e.1 == k) = false := beq_eq_false_iff_ne.mpr h
      simp only [mapDelete, List.filter, hb, Bool.not_false]
      rw [mapLookup, mapLookup]
      by_cases h2 : e.1 = k'
      · rw [if_pos h2, if_pos h2]
      · rw [if_neg h2, if_neg h2]
        exact ih

theorem keysOf_mapInsert_mem {α : Type} :
    ∀ (m : List (String × α)) (k : String) (v : α), k ∈ keysOf m →
    keysOf (mapInsert m k v) = keysOf m := by
  intro m k v hmem
  induction m with
  | nil => simp [keysOf] at hmem
  | cons e rest ih =>
    rw [mapInsert]
    by_cases h : e.1 = k
    · rw [if_pos h, keysOf_cons, keysOf_cons, h]
    · rw [if_neg h, keysOf_cons, keysOf_cons]
      rw [keysOf_cons] at hmem
      have hmem2 : k ∈ keysOf rest := by
        rcases List.mem_cons.mp hmem with h1 | h1
        · exact absurd h1.symm h
        · exact h1
      rw [ih hmem2]

theorem keysOf_mapInsert_not_mem {α : Type} :
    ∀ (m : List (String × α)) (k : String) (v : α), k ∉ keysOf m →
    keysOf (mapInsert m k v) = keysOf m ++ [k] := by
  intro m k v hmem
  induction m with
  | nil => rfl
  | cons e rest ih =>
    rw [keysOf_cons] at hmem
    have h1 : ¬ e.1 = k := fun h => hmem (by rw [h]; exact List.mem_cons_self _ _)
    have h2 : k ∉ keysOf rest := fun h => hmem (List.mem_cons_of_mem _ h)
    rw [mapInsert, if_neg h1, keysOf_cons, keysOf_cons, List.cons_append, ih h2]

theorem keysOf_nodup_mapInsert {α : Type}
    (m : List (String × α)) (k : String) (v : α) (h : (keysOf m).Nodup) :
    (keysOf (mapInsert m k v)).Nodup := by
  by_cases hm : k ∈ keysOf m
  · rw [keysOf_mapInsert_mem m k v hm]
    exact h
  · rw [keysOf_mapInsert_not_mem m k v hm]
    rw [List.nodup_append]
    exact ⟨h, List.nodup_singleton k, by simpa using hm⟩

theorem keysOf_mapDelete {α : Type} :
    ∀ (m : List (String × α)) (k : String),
    keysOf (mapDelete m k) = (keysOf m).filter fun x => !(x == k) := by
  intro m k
  induction m with
  | nil => rfl
  | cons e rest ih =>
    by_cases h : e.1 = k
    · have hb : (e.1 == k) = true := beq_iff_eq.mpr h
      simp only [mapDelete, List.filter, hb, Bool.not_true, keysOf_cons]
      exact ih
    · have hb : (e.1 == k) = false := beq_eq_false_iff_ne.mpr h
      simp only [mapDelete, List.filter, hb, Bool.not_false, keysOf_cons]
      have h2 := ih
      rw [mapDelete] at h2
      rw [h2]
      rfl

theorem keysOf_nodup_mapDelete {α : Type}
    (m : List (String × α)) (k : String) (h : (keysOf m).Nodup) :
    (keysOf (mapDelete m k)).Nodup := by
  rw [keysOf_mapDelete]
  exact h.filter _

theorem lookupList_mapInsert_self (m : List (String × List String)) (k : String)
    (v : List String) : lookupList (mapInsert m k v) k = v := by
  rw [lookupList, mapLookup_mapInsert_self]
  rfl

theorem lookupList_mapInsert_ne (m : List (String × List String)) (k k' : String)
    (v : List String) (h : k ≠ k') : lookupList (mapInsert m k v) k' = lookupList m k' := by
  rw [lookupList, mapLookup_mapInsert_ne m k k' v h, lookupList]

theorem lookupList_mapDelete_self (m : List (String × List String)) (k : String) :
    lookupList (mapDelete m k) k = [] := by
  rw [lookupList, mapLookup_mapDelete_self]
  rfl

theorem lookupList_mapDelete_ne (m : List (String × List String)) (k k' : String)
    (h : k ≠ k') : lookupList (mapDelete m k) k' = lookupList m k' := by
  rw [lookupList, mapLookup_mapDelete_ne m k k' h, lookupList]

theorem mapDelete_mapInsert_self {α : Type} :
    ∀ (m : List (String × α)) (k : String) (v : α),
    mapDelete (mapInsert m k v) k = mapDelete m k := by
  intro m k v
  induction m with
  | nil => simp [mapInsert, mapDelete, List.filter]
  | cons e rest ih =>
    rw [mapInsert]
    by_cases h : e.1 = k
    · have hb : (e.1 == k) = true := beq_iff_eq.mpr h
      rw [if_pos h]
      show mapDelete ((k, v) :: rest) k = mapDelete (e :: rest) k
      simp only [mapDelete, List.filter, beq_self_eq_true, Bool.not_true, hb]
    · have hb : (e.1 == k) = false := beq_eq_false_iff_ne.mpr h
      rw [if_neg h]
      show mapDelete (e :: mapInsert rest k v) k = mapDelete (e :: rest) k
      simp only [mapDelete, List.filter, hb, Bool.not_false]
      have h2 := ih
      rw [mapDelete, mapDelete] at h2
      rw [h2]

theorem rfsv_of_not_mem : ∀ (l : List String) (y : String), y ∉ l →
    removeFromSliceValue l y = l := by
  intro l y h
  induction l with
  | nil => rfl
  | cons a rest ih =>
    have h1 : ¬ a = y := fun he => h (by rw [he]; exact List.mem_cons_self _ _)
    have h2 : y ∉ rest := fun hm => h (List.mem_cons_of_mem _ hm)
    rw [removeFromSliceValue, if_neg h1, ih h2]

theorem count_rfsv_ne : ∀ (l : List String) (x y : String), x ≠ y →
    (removeFromSliceValue l y).count x = l.count x := by
  intro l x y hxy
  induction l with
  | nil => rfl
  | cons a rest ih =>
    rw [removeFromSliceValue]
    by_cases h : a = y
    · rw [if_pos h, List.count_cons]
      have : (a == x) = false := by
        rw [h]
        exact beq_eq_false_iff_ne.mpr fun he => hxy he.symm
      rw [this]
      rfl
    · rw [if_neg h, List.count_cons, List.count_cons, ih]

theorem count_rfsv_self : ∀ (l : List String) (y : String), y ∈ l →
    (removeFromSliceValue l y).count y + 1 = l.count y := by
  intro l y hmem
  induction l with
  | nil => simp at hmem
  | cons a rest ih =>
    rw [removeFromSliceValue]
    by_cases h : a = y
    · rw [if_pos h, List.count_cons]
      have hb : (a == y) = true := beq_iff_eq.mpr h
      rw [hb]
      simp
    · rw [if_neg h, List.count_cons, List.count_cons]
      have hb : (a == y) = false := beq_eq_false_iff_ne.mpr h
      rw [hb]
      have hm2 : y ∈ rest := by
        rcases List.mem_cons.mp hmem with h1 | h1
        · exact absurd h1.symm h
        · exact h1
      have := ih hm2
      omega

theorem foldl_rfsv_self : ∀ (l : List String), l.Nodup →
    List.foldl removeFromSliceValue l l = [] := by
  have aux : ∀ (todo start : List String), start.Nodup →
      (∀ y ∈ todo, y ∈ start) → todo.Nodup →
      List.foldl removeFromSliceValue start todo =
        todo.foldl removeFromSliceValue start := fun _ _ _ _ _ => rfl
  intro l
  induction l with
  | nil => intro _; rfl
  | cons a rest ih =>
    intro hnd
    rw [List.foldl_cons, removeFromSliceValue, if_pos rfl]
    exact ih (List.Nodup.of_cons hnd)

theorem joinVals_count : ∀ (m : List (String × List String)) (x : String),
    (joinVals m).count x = (m.map fun e => e.2.count x).sum := by
  intro m x
  induction m with
  | nil => rfl
  | cons e rest ih =>
    rw [joinVals, List.map_cons, List.flatten_cons, List.count_append, List.map_cons,
      List.sum_cons]
    rw [joinVals] at ih
    rw [ih]

theorem sumLens_eq_joinVals_length : ∀ (m : List (String × List String)),
    (m.map fun e => e.2.length).sum = (joinVals m).length := by
  intro m
  induction m with
  | nil => rfl
  | cons e rest ih =>
    show (e.2.length :: (rest.map fun e => e.2.length)).sum =
      (e.2 :: rest.map Prod.snd).flatten.length
    rw [List.sum_cons, List.flatten_cons, List.length_append]
    rw [joinVals] at ih
    rw [ih]

theorem mapLookup_of_mem {α : Type} :
    ∀ (m : List (String × α)) (e : String × α), (keysOf m).Nodup → e ∈ m →
    mapLookup m e.1 = some e.2 := by
  intro m e hnd hmem
  induction m with
  | nil => simp at hmem
  | cons f rest ih =>
    rw [keysOf_cons] at hnd
    rcases List.mem_cons.mp hmem with h1 | h1
    · rw [h1, mapLookup, if_pos rfl]
    · rw [mapLookup]
      by_cases h2 : f.1 = e.1
      · exfalso
        have : e.1 ∈ keysOf rest := by
          rw [keysOf]
          exact List.mem_map.mpr ⟨e, h1, rfl⟩
        rw [h2] at hnd
        exact (List.nodup_cons.mp hnd).1 this
      · rw [if_neg h2]
        exact ih (List.nodup_cons.mp hnd).2 h1

theorem mem_keys_of_lookup_some {α : Type} (m : List (String × α)) (k : String) (v : α)
    (h : mapLookup m k = some v) : k ∈ keysOf m := by
  by_contra hmem
  rw [← mapLookup_eq_none_iff] at hmem
  rw [hmem] at h
  exact Option.noConfusion h

theorem indicator_sum_eq_count {α : Type} :
    ∀ (m : List (String × α)) (T : String),
    (m.map fun e => if e.1 = T then 1 else 0).sum = (keysOf m).count T := by
  intro m T
  induction m with
  | nil => rfl
  | cons e rest ih =>
    rw [List.map_cons, List.sum_cons, keysOf_cons, List.count_cons, ih]
    by_cases h : e.1 = T
    · have hb : (e.1 == T) = true := beq_iff_eq.mpr h
      rw [if_pos h, hb, if_pos rfl]
      omega
    · have hb : (e.1 == T) = false := beq_eq_false_iff_ne.mpr h
      rw [if_neg h, hb, if_neg Bool.false_ne_true]
      omega

theorem index_sum_eq_subs_length
    (subs : List (String × Subscription)) (m : List (String × List String))
    (keyF : Subscription → String)
    (hsub : (keysOf subs).Nodup) (hm : (keysOf m).Nodup)
    (hfree : ∀ i, mapLookup subs i = none → ∀ t, (lookupList m t).count i = 0)
    (hloc : ∀ i sub, mapLookup subs i = some sub →
      ∀ t, (lookupList m t).count i = if t = keyF sub then 1 else 0) :
    (m.map fun e => e.2.length).sum = subs.length := by
  rw [sumLens_eq_joinVals_length]
  have hent : ∀ (x : String), ∀ e ∈ m, e.2.count x = (lookupList m e.1).count x := by
    intro x e he
    rw [lookupList, mapLookup_of_mem m e hm he]
    rfl
  have hperm : (joinVals m).Perm (keysOf subs) := by
    rw [List.perm_iff_count]
    intro x
    rw [joinVals_count]
    cases hx : mapLookup subs x with
    | none =>
      have hz : (m.map fun e => e.2.count x).sum = 0 := by
        apply List.sum_eq_zero
        intro n hn
        obtain ⟨e, he, hne⟩ := List.mem_map.mp hn
        rw [← hne, hent x e he]
        exact hfree x hx e.1
      rw [hz]
      have hnx : x ∉ keysOf subs := (mapLookup_eq_none_iff subs x).mp hx
      rw [List.count_eq_zero.mpr hnx]
    | some sub =>
      have hmapeq : (m.map fun e => e.2.count x) =
          (m.map fun e => if e.1 = keyF sub then 1 else 0) := by
        apply List.map_congr_left
        intro e he
        rw [hent x e he]
        exact hloc x sub hx e.1
      rw [hmapeq, indicator_sum_eq_count]
      have hmem : keyF sub ∈ keysOf m := by
        have h2 := hloc x sub hx (keyF sub)
        rw [if_pos rfl] at h2
        cases hL : mapLookup m (keyF sub) with
        | none =>
          rw [lookupList, hL] at h2
          simp at h2
        | some v => exact mem_keys_of_lookup_some m (keyF sub) v hL
      rw [List.count_eq_one_of_mem hm hmem]
      have hxs : x ∈ keysOf subs := mem_keys_of_lookup_some subs x sub hx
      rw [List.count_eq_one_of_mem hsub hxs]
  rw [hperm.length_eq, keysOf, List.length_map]

theorem reginv_sums (r : Registry) (h : RegInv r) :
    r.sumCountByType = r.count ∧ r.sumCountByConnection = r.count := by
  constructor
  · exact index_sum_eq_subs_length r.subscriptions r.byType (fun s => s.typ)
      h.subsNodup h.typeNodup h.typeFree h.typeLoc
  · exact index_sum_eq_subs_length r.subscriptions r.byConnection (fun s => s.ConnectionID)
      h.subsNodup h.connNodup h.connFree h.connLoc

theorem count_append_single (l : List String) (a x : String) :
    (l ++ [a]).count x = l.count x + if a = x then 1 else 0 := by
  rw [List.count_append]
  by_cases h : a = x
  · have hb : (a == x) = true := beq_iff_eq.mpr h
    rw [if_pos h]
    simp [List.count_cons, hb]
  · have hb : (a == x) = false := beq_eq_false_iff_ne.mpr h
    rw [if_neg h]
    simp [List.count_cons, hb]

theorem reginv_new : RegInv Registry.new := by
  refine ⟨List.nodup_nil, List.nodup_nil, List.nodup_nil, ?_, ?_, ?_, ?_⟩
  · intro i _ t
    rfl
  · intro i _ c
    rfl
  · intro i sub hi t
    exact Option.noConfusion hi
  · intro i sub hi c
    exact Option.noConfusion hi

theorem reginv_add (r : Registry) (sub : Subscription) (sbr : String)
    (h : RegInv r) (hfresh : mapLookup r.subscriptions sub.ID = none) :
    RegInv (r.add sub sbr).2 := by
  have hTypeCount : ∀ (i : String), mapLookup r.subscriptions i = none → ¬ sub.ID = i →
      ∀ t, (lookupList (mapInsert r.byType sub.typ
        (lookupList r.byType sub.typ ++ [sub.ID])) t).count i = 0 := by
    intro i hio hne t
    by_cases ht : sub.typ = t
    · subst ht
      rw [lookupList_mapInsert_self, count_append_single, h.typeFree i hio sub.typ,
        if_neg hne]
    · rw [lookupList_mapInsert_ne _ _ _ _ ht]
      exact h.typeFree i hio t
  have hConnCount : ∀ (i : String), mapLookup r.subscriptions i = none → ¬ sub.ID = i →
      ∀ c, (lookupList (mapInsert r.byConnection sub.ConnectionID
        (lookupList r.byConnection sub.ConnectionID ++ [sub.ID])) c).count i = 0 := by
    intro i hio hne c
    by_cases hc : sub.ConnectionID = c
    · subst hc
      rw [lookupList_mapInsert_self, count_append_single, h.connFree i hio sub.ConnectionID,
        if_neg hne]
    · rw [lookupList_mapInsert_ne _ _ _ _ hc]
      exact h.connFree i hio c
  refine ⟨?_, ?_, ?_, ?_, ?_, ?_, ?_⟩
  · exact keysOf_nodup_mapInsert _ _ _ h.subsNodup
  · exact keysOf_nodup_mapInsert _ _ _ h.typeNodup
  · exact keysOf_nodup_mapInsert _ _ _ h.connNodup
  · intro i hi t
    replace hi : mapLookup (mapInsert r.subscriptions sub.ID sub) i = none := hi
    have hne : ¬ sub.ID = i := by
      intro he
      rw [← he, mapLookup_mapInsert_self] at hi
      exact Option.noConfusion hi
    rw [mapLookup_mapInsert_ne _ _ _ _ hne] at hi
    exact hTypeCount i hi hne t
  · intro i hi c
    replace hi : mapLookup (mapInsert r.subscriptions sub.ID sub) i = none := hi
    have hne : ¬ sub.ID = i := by
      intro he
      rw [← he, mapLookup_mapInsert_self] at hi
      exact Option.noConfusion hi
    rw [mapLookup_mapInsert_ne _ _ _ _ hne] at hi
    exact hConnCount i hi hne c
  · intro i s hi t
    replace hi : mapLookup (mapInsert r.subscriptions sub.ID sub) i = some s := hi
    show (lookupList (mapInsert r.byType sub.typ
      (lookupList r.byType sub.typ ++ [sub.ID])) t).count i = if t = s.typ then 1 else 0
    by_cases hid : sub.ID = i
    · subst hid
      rw [mapLookup_mapInsert_self] at hi
      have hs : s = sub := by
        injection hi with hh
        exact hh.symm
      subst hs
      by_cases ht : s.typ = t
      · subst ht
        rw [lookupList_mapInsert_self, count_append_single, h.typeFree s.ID hfresh s.typ,
          if_pos rfl, if_pos rfl]
      · rw [lookupList_mapInsert_ne _ _ _ _ ht, h.typeFree s.ID hfresh t,
          if_neg fun he => ht he.symm]
    · rw [mapLookup_mapInsert_ne _ _ _ _ hid] at hi
      by_cases ht : sub.typ = t
      · subst ht
        rw [lookupList_mapInsert_self, count_append_single, if_neg hid,
          h.typeLoc i s hi sub.typ, Nat.add_zero]
      · rw [lookupList_mapInsert_ne _ _ _ _ ht]
        exact h.typeLoc i s hi t
  · intro i s hi c
    replace hi : mapLookup (mapInsert r.subscriptions sub.ID sub) i = some s := hi
    show (lookupList (mapInsert r.byConnection sub.ConnectionID
      (lookupList r.byConnection sub.ConnectionID ++ [sub.ID])) c).count i =
      if c = s.ConnectionID then 1 else 0
    by_cases hid : sub.ID = i
    · subst hid
      rw [mapLookup_mapInsert_self] at hi
      have hs : s = sub := by
        injection hi with hh
        exact hh.symm
      subst hs
      by_cases hc : s.ConnectionID = c
      · subst hc
        rw [lookupList_mapInsert_self, count_append_single,
          h.connFree s.ID hfresh s.ConnectionID, if_pos rfl, if_pos rfl]
      · rw [lookupList_mapInsert_ne _ _ _ _ hc, h.connFree s.ID hfresh c,
          if_neg fun he => hc he.symm]
    · rw [mapLookup_mapInsert_ne _ _ _ _ hid] at hi
      by_cases hc : sub.ConnectionID = c
      · subst hc
        rw [lookupList_mapInsert_self, count_append_single, if_neg hid,
          h.connLoc i s hi sub.ConnectionID, Nat.add_zero]
      · rw [lookupList_mapInsert_ne _ _ _ _ hc]
        exact h.connLoc i s hi c

theorem reginv_remove (r : Registry) (i0 : String) (h : RegInv r) :
    RegInv (r.remove i0) := by
  cases hl : mapLookup r.subscriptions i0 with
  | none =>
    simp only [Registry.remove, hl]
    exact h
  | some sub =>
    simp only [Registry.remove, hl]
    refine ⟨?_, ?_, ?_, ?_, ?_, ?_, ?_⟩
    · exact keysOf_nodup_mapDelete _ _ h.subsNodup
    · exact keysOf_nodup_mapInsert _ _ _ h.typeNodup
    · exact keysOf_nodup_mapInsert _ _ _ h.connNodup
    · intro i hi t
      replace hi : mapLookup (mapDelete r.subscriptions i0) i = none := hi
      show (lookupList (mapInsert r.byType sub.typ
        (removeFromSliceValue (lookupList r.byType sub.typ) i0)) t).count i = 0
      by_cases hii : i0 = i
      · subst hii
        by_cases ht : sub.typ = t
        · subst ht
          rw [lookupList_mapInsert_self]
          have hone : (lookupList r.byType sub.typ).count i0 = 1 := by
            rw [h.typeLoc i0 sub hl sub.typ, if_pos rfl]
          have hmem : i0 ∈ lookupList r.byType sub.typ := by
            rw [← List.count_pos_iff]
            omega
          have := count_rfsv_self (lookupList r.byType sub.typ) i0 hmem
          omega
        · rw [lookupList_mapInsert_ne _ _ _ _ ht, h.typeLoc i0 sub hl t,
            if_neg fun he => ht he.symm]
      · rw [mapLookup_mapDelete_ne _ _ _ hii] at hi
        by_cases ht : sub.typ = t
        · subst ht
          rw [lookupList_mapInsert_self, count_rfsv_ne _ _ _ fun he => hii he.symm]
          exact h.typeFree i hi sub.typ
        · rw [lookupList_mapInsert_ne _ _ _ _ ht]
          exact h.typeFree i hi t
    · intro i hi c
      replace hi : mapLookup (mapDelete r.subscriptions i0) i = none := hi
      show (lookupList (mapInsert r.byConnection sub.ConnectionID
        (removeFromSliceValue (lookupList r.byConnection sub.ConnectionID) i0)) c).count i = 0
      by_cases hii : i0 = i
      · subst hii
        by_cases hc : sub.ConnectionID = c
        · subst hc
          rw [lookupList_mapInsert_self]
          have hone : (lookupList r.byConnection sub.ConnectionID).count i0 = 1 := by
            rw [h.connLoc i0 sub hl sub.ConnectionID, if_pos rfl]
          have hmem : i0 ∈ lookupList r.byConnection sub.ConnectionID := by
            rw [← List.count_pos_iff]
            omega
          have := count_rfsv_self (lookupList r.byConnection sub.ConnectionID) i0 hmem
          omega
        · rw [lookupList_mapInsert_ne _ _ _ _ hc, h.connLoc i0 sub hl c,
            if_neg fun he => hc he.symm]
      · rw [mapLookup_mapDelete_ne _ _ _ hii] at hi
        by_cases hc : sub.ConnectionID = c
        · subst hc
          rw [lookupList_mapInsert_self, count_rfsv_ne _ _ _ fun he => hii he.symm]
          exact h.connFree i hi sub.ConnectionID
        · rw [lookupList_mapInsert_ne _ _ _ _ hc]
          exact h.connFree i hi c
    · intro i s hi t
      replace hi : mapLookup (mapDelete r.subscriptions i0) i = some s := hi
      show (lookupList (mapInsert r.byType sub.typ
        (removeFromSliceValue (lookupList r.byType sub.typ) i0)) t).count i =
        if t = s.typ then 1 else 0
      have hii : ¬ i0 = i := by
        intro he
        rw [← he, mapLookup_mapDelete_self] at hi
        exact Option.noConfusion hi
      rw [mapLookup_mapDelete_ne _ _ _ hii] at hi
      by_cases ht : sub.typ = t
      · subst ht
        rw [lookupList_mapInsert_self, count_rfsv_ne _ _ _ fun he => hii he.symm]
        exact h.typeLoc i s hi sub.typ
      · rw [lookupList_mapInsert_ne _ _ _ _ ht]
        exact h.typeLoc i s hi t
    · intro i s hi c
      replace hi : mapLookup (mapDelete r.subscriptions i0) i = some s := hi
      show (lookupList (mapInsert r.byConnection sub.ConnectionID
        (removeFromSliceValue (lookupList r.byConnection sub.ConnectionID) i0)) c).count i =
        if c = s.ConnectionID then 1 else 0
      have hii : ¬ i0 = i := by
        intro he
        rw [← he, mapLookup_mapDelete_self] at hi
        exact Option.noConfusion hi
      rw [mapLookup_mapDelete_ne _ _ _ hii] at hi
      by_cases hc : sub.ConnectionID = c
      · subst hc
        rw [lookupList_mapInsert_self, count_rfsv_ne _ _ _ fun he => hii he.symm]
        exact h.connLoc i s hi sub.ConnectionID
      · rw [lookupList_mapInsert_ne _ _ _ _ hc]
        exact h.connLoc i s hi c

theorem registryExt (a b : Registry)
    (h1 : a.subscriptions = b.subscriptions) (h2 : a.byType = b.byType)
    (h3 : a.byConnection = b.byConnection) (h4 : a.subscribers = b.subscribers) :
    a = b := by
  cases a
  cases b
  cases h1
  cases h2
  cases h3
  cases h4
  rfl

theorem rbc_loop_relate (c : String) :
    ∀ (L : List String) (r1 r2 : Registry),
    r1.subscriptions = r2.subscriptions → r1.byType = r2.byType →
    r1.subscribers = r2.subscribers →
    mapDelete r1.byConnection c = mapDelete r2.byConnection c →
    L.Nodup →
    (∀ i ∈ L, ∃ sub, mapLookup r1.subscriptions i = some sub ∧ sub.ConnectionID = c) →
    (L.foldl rbcBody r1).subscriptions = (L.foldl Registry.remove r2).subscriptions ∧
    (L.foldl rbcBody r1).byType = (L.foldl Registry.remove r2).byType ∧
    (L.foldl rbcBody r1).subscribers = (L.foldl Registry.remove r2).subscribers ∧
    (L.foldl rbcBody r1).byConnection = r1.byConnection ∧
    mapDelete r1.byConnection c = mapDelete (L.foldl Registry.remove r2).byConnection c := by
  intro L
  induction L with
  | nil =>
    intro r1 r2 h1 h2 h3 h4 _ _
    exact ⟨h1, h2, h3, rfl, h4⟩
  | cons a L ih =>
    intro r1 r2 h1 h2 h3 h4 hnd hown
    obtain ⟨sub, hsub, hconn⟩ := hown a (List.mem_cons_self _ _)
    have hsub2 : mapLookup r2.subscriptions a = some sub := by
      rw [← h1]
      exact hsub
    have e1 : rbcBody r1 a =
        { subscriptions := mapDelete r1.subscriptions a
          byType := mapInsert r1.byType sub.typ
            (removeFromSliceValue (lookupList r1.byType sub.typ) a)
          byConnection := r1.byConnection
          subscribers := mapDelete r1.subscribers a } := by
      simp only [rbcBody, hsub]
    have e2 : Registry.remove r2 a =
        { subscriptions := mapDelete r2.subscriptions a
          byType := mapInsert r2.byType sub.typ
            (removeFromSliceValue (lookupList r2.byType sub.typ) a)
          byConnection := mapInsert r2.byConnection sub.ConnectionID
            (removeFromSliceValue (lookupList r2.byConnection sub.ConnectionID) a)
          subscribers := mapDelete r2.subscribers a } := by
      simp only [Registry.remove, hsub2]
    rw [List.foldl_cons, List.foldl_cons]
    have hrec := ih (rbcBody r1 a) (Registry.remove r2 a)
      (by rw [e1, e2, h1]) (by rw [e1, e2, h1, h2]) (by rw [e1, e2, h3])
      (by rw [e1, e2]
          show mapDelete r1.byConnection c = mapDelete (mapInsert r2.byConnection
            sub.ConnectionID (removeFromSliceValue
              (lookupList r2.byConnection sub.ConnectionID) a)) c
          rw [hconn, mapDelete_mapInsert_self, h4])
      (List.Nodup.of_cons hnd)
      (by intro i hi
          obtain ⟨s, hs, hc2⟩ := hown i (List.mem_cons_of_mem _ hi)
          have hne : ¬ a = i := by
            intro he
            rw [he] at hnd
            exact (List.nodup_cons.mp hnd).1 hi
          refine ⟨s, ?_, hc2⟩
          rw [e1]
          show mapLookup (mapDelete r1.subscriptions a) i = some s
          rw [mapLookup_mapDelete_ne _ _ _ hne]
          exact hs)
    obtain ⟨g1, g2, g3, g4, g5⟩ := hrec
    refine ⟨g1, g2, g3, ?_, ?_⟩
    · rw [g4, e1]
    · rw [← g5, e1]

theorem removeByConnection_eq_fold (r : Registry) (c : String)
    (hnd : (lookupList r.byConnection c).Nodup)
    (hown : ∀ i ∈ lookupList r.byConnection c,
      ∃ sub, mapLookup r.subscriptions i = some sub ∧ sub.ConnectionID = c) :
    r.removeByConnection c =
      ((lookupList r.byConnection c).foldl Registry.remove r).dropConnEntry c := by
  obtain ⟨e1, e2, e3, e4, e5⟩ :=
    rbc_loop_relate c (lookupList r.byConnection c) r r rfl rfl rfl rfl hnd hown
  apply registryExt
  · exact e1
  · exact e2
  · show mapDelete ((lookupList r.byConnection c).foldl rbcBody r).byConnection c =
      mapDelete ((lookupList r.byConnection c).foldl Registry.remove r).byConnection c
    rw [e4, e5]
  · exact e3

theorem reginv_conn_nodup (r : Registry) (h : RegInv r) (c : String) :
    (lookupList r.byConnection c).Nodup := by
  rw [List.nodup_iff_count_le_one]
  intro i
  cases hx : mapLookup r.subscriptions i with
  | none => rw [h.connFree i hx c]; omega
  | some s =>
    rw [h.connLoc i s hx c]
    by_cases hc : c = s.ConnectionID
    · rw [if_pos hc]
    · rw [if_neg hc]; omega

theorem reginv_conn_owned (r : Registry) (h : RegInv r) (c : String) :
    ∀ i ∈ lookupList r.byConnection c,
    ∃ sub, mapLookup r.subscriptions i = some sub ∧ sub.ConnectionID = c := by
  intro i hi
  have hpos : 0 < (lookupList r.byConnection c).count i := List.count_pos_iff.mpr hi
  cases hx : mapLookup r.subscriptions i with
  | none =>
    rw [h.connFree i hx c] at hpos
    omega
  | some s =>
    rw [h.connLoc i s hx c] at hpos
    by_cases hc : c = s.ConnectionID
    · exact ⟨s, rfl, hc.symm⟩
    · rw [if_neg hc] at hpos
      omega

theorem reginv_foldl_remove : ∀ (L : List String) (r : Registry), RegInv r →
    RegInv (L.foldl Registry.remove r) := by
  intro L
  induction L with
  | nil => intro r h; exact h
  | cons a L ih =>
    intro r h
    rw [List.foldl_cons]
    exact ih _ (reginv_remove r a h)

theorem fold_remove_conn_entry (c : String) :
    ∀ (L : List String) (r : Registry), L.Nodup →
    (∀ i ∈ L, ∃ sub, mapLookup r.subscriptions i = some sub ∧ sub.ConnectionID = c) →
    lookupList ((L.foldl Registry.remove r)).byConnection c =
      L.foldl removeFromSliceValue (lookupList r.byConnection c) := by
  intro L
  induction L with
  | nil => intro r _ _; rfl
  | cons a L ih =>
    intro r hnd hown
    obtain ⟨sub, hsub, hconn⟩ := hown a (List.mem_cons_self _ _)
    have e2 : Registry.remove r a =
        { subscriptions := mapDelete r.subscriptions a
          byType := mapInsert r.byType sub.typ
            (removeFromSliceValue (lookupList r.byType sub.typ) a)
          byConnection := mapInsert r.byConnection sub.ConnectionID
            (removeFromSliceValue (lookupList r.byConnection sub.ConnectionID) a)
          subscribers := mapDelete r.subscribers a } := by
      simp only [Registry.remove, hsub]
    rw [List.foldl_cons, List.foldl_cons]
    have hLcond : ∀ i ∈ L, ∃ s, mapLookup (Registry.remove r a).subscriptions i = some s ∧
        s.ConnectionID = c := by
      intro i hi
      obtain ⟨s, hs, hc2⟩ := hown i (List.mem_cons_of_mem _ hi)
      have hne : ¬ a = i := by
        intro he
        rw [he] at hnd
        exact (List.nodup_cons.mp hnd).1 hi
      refine ⟨s, ?_, hc2⟩
      rw [e2]
      show mapLookup (mapDelete r.subscriptions a) i = some s
      rw [mapLookup_mapDelete_ne _ _ _ hne]
      exact hs
    rw [ih (Registry.remove r a) (List.Nodup.of_cons hnd) hLcond]
    have : lookupList (Registry.remove r a).byConnection c =
        removeFromSliceValue (lookupList r.byConnection c) a := by
      rw [e2]
      show lookupList (mapInsert r.byConnection sub.ConnectionID
        (removeFromSliceValue (lookupList r.byConnection sub.ConnectionID) a)) c =
        removeFromSliceValue (lookupList r.byConnection c) a
      rw [hconn, lookupList_mapInsert_self]
    rw [this]

theorem reginv_dropConn (r : Registry) (c : String) (h : RegInv r)
    (hempty : lookupList r.byConnection c = []) : RegInv (r.dropConnEntry c) := by
  refine ⟨h.subsNodup, h.typeNodup, ?_, h.typeFree, ?_, h.typeLoc, ?_⟩
  · exact keysOf_nodup_mapDelete _ _ h.connNodup
  · intro i hi c'
    show (lookupList (mapDelete r.byConnection c) c').count i = 0
    by_cases hc : c = c'
    · subst hc
      rw [lookupList_mapDelete_self]
      rfl
    · rw [lookupList_mapDelete_ne _ _ _ hc]
      exact h.connFree i hi c'
  · intro i s hi c'
    show (lookupList (mapDelete r.byConnection c) c').count i =
      if c' = s.ConnectionID then 1 else 0
    by_cases hc : c = c'
    · subst hc
      rw [lookupList_mapDelete_self]
      have hcount := h.connLoc i s hi c
      rw [hempty] at hcount
      simp only [List.count_nil] at hcount
      by_cases hcs : c = s.ConnectionID
      · rw [if_pos hcs] at hcount
        exact absurd hcount (by omega)
      · rw [if_neg hcs]
        rfl
    · rw [lookupList_mapDelete_ne _ _ _ hc]
      exact h.connLoc i s hi c'

theorem reginv_removeByConnection (r : Registry) (c : String) (h : RegInv r) :
    RegInv (r.removeByConnection c) := by
  rw [removeByConnection_eq_fold r c (reginv_conn_nodup r h c) (reginv_conn_owned r h c)]
  apply reginv_dropConn _ c (reginv_foldl_remove _ _ h)
  rw [fold_remove_conn_entry c (lookupList r.byConnection c) r
    (reginv_conn_nodup r h c) (reginv_conn_owned r h c)]
  exact foldl_rfsv_self _ (reginv_conn_nodup r h c)

theorem addIds_append : ∀ (xs ys : List RegOp),
    addIds (xs ++ ys) = addIds xs ++ addIds ys := by
  intro xs ys
  induction xs with
  | nil => rfl
  | cons op xs ih =>
    cases op with
    | add sub sbr => rw [List.cons_append, addIds, addIds, ih, List.cons_append]
    | remove i => rw [List.cons_append, addIds, addIds, ih]
    | removeByConn c => rw [List.cons_append, addIds, addIds, ih]

theorem rbcBody_subscriptions (r : Registry) (a : String) :
    (rbcBody r a).subscriptions = mapDelete r.subscriptions a := by
  cases hl : mapLookup r.subscriptions a <;> simp only [rbcBody, hl]

theorem lookup_none_mapDelete {α : Type} (m : List (String × α)) (k i : String)
    (h : mapLookup m i = none) : mapLookup (mapDelete m k) i = none := by
  by_cases hk : k = i
  · subst hk
    exact mapLookup_mapDelete_self m k
  · rw [mapLookup_mapDelete_ne _ _ _ hk]
    exact h

theorem lookup_none_foldl_rbc (i : String) : ∀ (L : List String) (r : Registry),
    mapLookup r.subscriptions i = none →
    mapLookup ((L.foldl rbcBody r)).subscriptions i = none := by
  intro L
  induction L with
  | nil => intro r h; exact h
  | cons a L ih =>
    intro r h
    rw [List.foldl_cons]
    apply ih
    rw [rbcBody_subscriptions]
    exact lookup_none_mapDelete _ _ _ h

theorem lookup_none_applyOp (r : Registry) (op : RegOp) (i : String)
    (h : mapLookup r.subscriptions i = none)
    (hne : ∀ sub sbr, op = RegOp.add sub sbr → ¬ sub.ID = i) :
    mapLookup (applyOp r op).subscriptions i = none := by
  cases op with
  | add sub sbr =>
    show mapLookup (mapInsert r.subscriptions sub.ID sub) i = none
    rw [mapLookup_mapInsert_ne _ _ _ _ (hne sub sbr rfl)]
    exact h
  | remove j =>
    show mapLookup (r.remove j).subscriptions i = none
    cases hl : mapLookup r.subscriptions j with
    | none =>
      simp only [Registry.remove, hl]
      exact h
    | some sub =>
      simp only [Registry.remove, hl]
      exact lookup_none_mapDelete _ _ _ h
  | removeByConn c =>
    show mapLookup (r.removeByConnection c).subscriptions i = none
    exact lookup_none_foldl_rbc i _ r h

theorem reginv_applyOps : ∀ (ops : List RegOp) (r : Registry), RegInv r →
    (addIds ops).Nodup →
    (∀ i ∈ addIds ops, mapLookup r.subscriptions i = none) →
    RegInv (ops.foldl applyOp r) := by
  intro ops
  induction ops with
  | nil => intro r h _ _; exact h
  | cons op ops ih =>
    intro r h hnd hfresh
    rw [List.foldl_cons]
    cases op with
    | add sub sbr =>
      rw [addIds] at hnd hfresh
      apply ih _ (reginv_add r sub sbr h (hfresh sub.ID (List.mem_cons_self _ _)))
        (List.Nodup.of_cons hnd)
      intro i hi
      apply lookup_none_applyOp r (RegOp.add sub sbr) i
        (hfresh i (List.mem_cons_of_mem _ hi))
      intro s2 sb2 he
      injection he with he1 _
      subst he1
      intro hid
      rw [hid] at hnd
      exact (List.nodup_cons.mp hnd).1 hi
    | remove j =>
      rw [addIds] at hnd hfresh
      apply ih _ (reginv_remove r j h) hnd
      intro i hi
      exact lookup_none_applyOp r (RegOp.remove j) i (hfresh i hi)
        (fun s2 sb2 he => RegOp.noConfusion he)
    | removeByConn c =>
      rw [addIds] at hnd hfresh
      apply ih _ (reginv_removeByConnection r c h) hnd
      intro i hi
      exact lookup_none_applyOp r (RegOp.removeByConn c) i (hfresh i hi)
        (fun s2 sb2 he => RegOp.noConfusion he)

/-- C4: starting from the empty registry, after every prefix of a
sequence of Add, Remove, and RemoveByConnection operations whose Add
ids are pairwise distinct, the sum over all types in the type index of
CountByType and the sum over all connections in the connection index of
CountByConnection both equal Count, and each index entry length is
exactly the corresponding CountByType or CountByConnection value. -/
theorem registry_count_sums_agree :
    ∀ (pre suf : List RegOp), (addIds (pre ++ suf)).Nodup →
    (pre.foldl applyOp Registry.new).sumCountByType =
      (pre.foldl applyOp Registry.new).count ∧
    (pre.foldl applyOp Registry.new).sumCountByConnection =
      (pre.foldl applyOp Registry.new).count ∧
    (∀ e ∈ (pre.foldl applyOp Registry.new).byType,
      e.2.length = (pre.foldl applyOp Registry.new).countByType e.1) ∧
    (∀ e ∈ (pre.foldl applyOp Registry.new).byConnection,
      e.2.length = (pre.foldl applyOp Registry.new).countByConnection e.1) := by
  intro pre suf hnd
  have hpre : (addIds pre).Nodup := by
    rw [addIds_append] at hnd
    exact hnd.of_append_left
  have hinv : RegInv (pre.foldl applyOp Registry.new) :=
    reginv_applyOps pre Registry.new reginv_new hpre (fun i _ => rfl)
  obtain ⟨hs1, hs2⟩ := reginv_sums _ hinv
  refine ⟨hs1, hs2, ?_, ?_⟩
  · intro e he
    rw [Registry.countByType, lookupList, mapLookup_of_mem _ e hinv.typeNodup he]
    rfl
  · intro e he
    rw [Registry.countByConnection, lookupList, mapLookup_of_mem _ e hinv.connNodup he]
    rfl

theorem registry_count_sums_agree_witness :
    (addIds ([RegOp.add ⟨"0xa", "logs", GoVal.vnull, "c1", 0⟩ "w1",
              RegOp.add ⟨"0xb", "newHeads", GoVal.vnull, "c1", 0⟩ "w2",
              RegOp.remove "0xa"] ++ [RegOp.removeByConn "c1"])).Nodup ∧
    ([RegOp.add ⟨"0xa", "logs", GoVal.vnull, "c1", 0⟩ "w1",
      RegOp.add ⟨"0xb", "newHeads", GoVal.vnull, "c1", 0⟩ "w2",
      RegOp.remove "0xa"].foldl applyOp Registry.new).sumCountByType =
      ([RegOp.add ⟨"0xa", "logs", GoVal.vnull, "c1", 0⟩ "w1",
        RegOp.add ⟨"0xb", "newHeads", GoVal.vnull, "c1", 0⟩ "w2",
        RegOp.remove "0xa"].foldl applyOp Registry.new).count ∧
    ([RegOp.add ⟨"0xa", "logs", GoVal.vnull, "c1", 0⟩ "w1",
      RegOp.add ⟨"0xb", "newHeads", GoVal.vnull, "c1", 0⟩ "w2",
      RegOp.remove "0xa"].foldl applyOp Registry.new).sumCountByConnection =
      ([RegOp.add ⟨"0xa", "logs", GoVal.vnull, "c1", 0⟩ "w1",
        RegOp.add ⟨"0xb", "newHeads", GoVal.vnull, "c1", 0⟩ "w2",
        RegOp.remove "0xa"].foldl applyOp Registry.new).count :=
  ⟨by decide,
   (registry_count_sums_agree
     [RegOp.add ⟨"0xa", "logs", GoVal.vnull, "c1", 0⟩ "w1",
      RegOp.add ⟨"0xb", "newHeads", GoVal.vnull, "c1", 0⟩ "w2",
      RegOp.remove "0xa"] [RegOp.removeByConn "c1"] (by decide)).1,
   (registry_count_sums_agree
     [RegOp.add ⟨"0xa", "logs", GoVal.vnull, "c1", 0⟩ "w1",
      RegOp.add ⟨"0xb", "newHeads", GoVal.vnull, "c1", 0⟩ "w2",
      RegOp.remove "0xa"] [RegOp.removeByConn "c1"] (by decide)).2.1⟩

/-- C7: on any well-formed registry state (owned id list without
duplicates, every owned id present with the right connection),
RemoveByConnection(c) produces exactly the state obtained by calling
Remove on each of the ids owned by c, in index order, and then deleting
the (then empty) byConnection entry of c. -/
theorem removeByConnection_equiv_removes :
    ∀ (r : Registry) (c : String),
    (lookupList r.byConnection c).Nodup →
    (∀ i ∈ lookupList r.byConnection c,
      ∃ sub, mapLookup r.subscriptions i = some sub ∧ sub.ConnectionID = c) →
    r.removeByConnection c =
      ((lookupList r.byConnection c).foldl Registry.remove r).dropConnEntry c :=
  fun r c hnd hown => removeByConnection_eq_fold r c hnd hown

theorem removeByConnection_equiv_removes_witness :
    (lookupList (([RegOp.add ⟨"0xa", "logs", GoVal.vnull, "c1", 0⟩ "w1",
        RegOp.add ⟨"0xb", "newHeads", GoVal.vnull, "c1", 0⟩ "w2"].foldl applyOp
        Registry.new)).byConnection "c1").Nodup ∧
    (∀ i ∈ lookupList (([RegOp.add ⟨"0xa", "logs", GoVal.vnull, "c1", 0⟩ "w1",
        RegOp.add ⟨"0xb", "newHeads", GoVal.vnull, "c1", 0⟩ "w2"].foldl applyOp
        Registry.new)).byConnection "c1",
      ∃ sub, mapLookup (([RegOp.add ⟨"0xa", "logs", GoVal.vnull, "c1", 0⟩ "w1",
        RegOp.add ⟨"0xb", "newHeads", GoVal.vnull, "c1", 0⟩ "w2"].foldl applyOp
        Registry.new)).subscriptions i = some sub ∧ sub.ConnectionID = "c1") ∧
    ([RegOp.add ⟨"0xa", "logs", GoVal.vnull, "c1", 0⟩ "w1",
      RegOp.add ⟨"0xb", "newHeads", GoVal.vnull, "c1", 0⟩ "w2"].foldl applyOp
      Registry.new).removeByConnection "c1" =
      ((lookupList (([RegOp.add ⟨"0xa", "logs", GoVal.vnull, "c1", 0⟩ "w1",
          RegOp.add ⟨"0xb", "newHeads", GoVal.vnull, "c1", 0⟩ "w2"].foldl applyOp
          Registry.new)).byConnection "c1").foldl Registry.remove
        ([RegOp.add ⟨"0xa", "logs", GoVal.vnull, "c1", 0⟩ "w1",
          RegOp.add ⟨"0xb", "newHeads", GoVal.vnull, "c1", 0⟩ "w2"].foldl applyOp
          Registry.new)).dropConnEntry "c1" := by
  have hown : ∀ i ∈ lookupList (([RegOp.add ⟨"0xa", "logs", GoVal.vnull, "c1", 0⟩ "w1",
      RegOp.add ⟨"0xb", "newHeads", GoVal.vnull, "c1", 0⟩ "w2"].foldl applyOp
      Registry.new)).byConnection "c1",
      ∃ sub, mapLookup (([RegOp.add ⟨"0xa", "logs", GoVal.vnull, "c1", 0⟩ "w1",
        RegOp.add ⟨"0xb", "newHeads", GoVal.vnull, "c1", 0⟩ "w2"].foldl applyOp
        Registry.new)).subscriptions i = some sub ∧ sub.ConnectionID = "c1" := by
    intro i hi
    have hi2 : i = "0xa" ∨ i = "0xb" := by
      have : i ∈ ["0xa", "0xb"] := hi
      simpa using this
    rcases hi2 with h1 | h1
    · subst h1
      exact ⟨⟨"0xa", "logs", GoVal.vnull, "c1", 0⟩, rfl, rfl⟩
    · subst h1
      exact ⟨⟨"0xb", "newHeads", GoVal.vnull, "c1", 0⟩, rfl, rfl⟩
  exact ⟨by decide, hown,
    removeByConnection_equiv_removes _ "c1" (by decide) hown⟩

/-- C5: removing an id that is not present leaves the registry
unchanged, and the not-found report surfaces at the manager level where
Unsubscribe of an unknown id returns false; in particular Add(x) then
Remove(x) then Remove(x) from the empty registry leaves the registry
observably empty (no subscriptions, no subscribers, every index slice
empty) and the second Remove is a no-op with Unsubscribe returning
false. -/
theorem registry_remove_idempotent :
    (∀ (r : Registry) (i : String), mapLookup r.subscriptions i = none →
      r.remove i = r ∧ managerUnsubscribe r i = (false, r)) ∧
    (∀ (sub : Subscription) (sbr : String),
      ((Registry.new.add sub sbr).2.remove sub.ID).remove sub.ID =
        (Registry.new.add sub sbr).2.remove sub.ID ∧
      managerUnsubscribe ((Registry.new.add sub sbr).2.remove sub.ID) sub.ID =
        (false, (Registry.new.add sub sbr).2.remove sub.ID) ∧
      ((Registry.new.add sub sbr).2.remove sub.ID).count = 0 ∧
      ((Registry.new.add sub sbr).2.remove sub.ID).subscriptions = [] ∧
      ((Registry.new.add sub sbr).2.remove sub.ID).subscribers = [] ∧
      (∀ e ∈ ((Registry.new.add sub sbr).2.remove sub.ID).byType, e.2 = []) ∧
      (∀ e ∈ ((Registry.new.add sub sbr).2.remove sub.ID).byConnection, e.2 = [])) := by
  constructor
  · intro r i h
    constructor
    · simp only [Registry.remove, h]
    · simp only [managerUnsubscribe, h]
  · intro sub sbr
    have h2 : (Registry.new.add sub sbr).2.remove sub.ID =
        ⟨[], [(sub.typ, [])], [(sub.ConnectionID, [])], []⟩ := by
      simp [Registry.remove, Registry.add, Registry.new, mapLookup, mapDelete, mapInsert,
        lookupList, removeFromSliceValue, List.filter]
    rw [h2]
    refine ⟨rfl, rfl, rfl, rfl, rfl, ?_, ?_⟩
    · intro e he
      have := List.mem_singleton.mp he
      rw [this]
    · intro e he
      have := List.mem_singleton.mp he
      rw [this]

theorem registry_remove_idempotent_witness :
    mapLookup (Registry.new).subscriptions "0xz" = none ∧
    (Registry.new).remove "0xz" = Registry.new ∧
    managerUnsubscribe Registry.new "0xz" = (false, Registry.new) ∧
    ((Registry.new.add ⟨"0xa", "logs", GoVal.vnull, "c1", 0⟩ "w1").2.remove
      "0xa").count = 0 :=
  ⟨rfl,
   (registry_remove_idempotent.1 Registry.new "0xz" rfl).1,
   (registry_remove_idempotent.1 Registry.new "0xz" rfl).2,
   (registry_remove_idempotent.2 ⟨"0xa", "logs", GoVal.vnull, "c1", 0⟩ "w1").2.2.1⟩

/-- C6 counterexample: adding a second subscription whose id collides
with an existing one does not fail: Add returns nil and the registry
changes, with the id appended again to the type index, so the claimed
AlreadyExists rejection does not happen. -/
theorem registry_add_duplicate_cex :
    ((Registry.new.add ⟨"0xid", "logs", GoVal.vnull, "c1", 0⟩ "w1").2.add
        ⟨"0xid", "newHeads", GoVal.vnull, "c2", 1⟩ "w2").1 = none ∧
    ((Registry.new.add ⟨"0xid", "logs", GoVal.vnull, "c1", 0⟩ "w1").2.add
        ⟨"0xid", "newHeads", GoVal.vnull, "c2", 1⟩ "w2").2.byType =
      [("logs", ["0xid"]), ("newHeads", ["0xid"])] ∧
    (Registry.new.add ⟨"0xid", "logs", GoVal.vnull, "c1", 0⟩ "w1").2.byType =
      [("logs", ["0xid"])] ∧
    ¬ ((Registry.new.add ⟨"0xid", "logs", GoVal.vnull, "c1", 0⟩ "w1").2.add
        ⟨"0xid", "newHeads", GoVal.vnull, "c2", 1⟩ "w2").2.byType =
      (Registry.new.add ⟨"0xid", "logs", GoVal.vnull, "c1", 0⟩ "w1").2.byType :=
  ⟨rfl, by decide, by decide, by decide⟩

/-- C6 amended: Registry.Add never fails: for every starting state it
returns nil, stores the subscription under its id (overwriting any
existing entry), and appends the id to the type and connection index
slices even when the id already occurs there. -/
theorem registry_add_duplicate_amended :
    ∀ (r : Registry) (sub : Subscription) (sbr : String),
    (r.add sub sbr).1 = none ∧
    mapLookup (r.add sub sbr).2.subscriptions sub.ID = some sub ∧
    lookupList (r.add sub sbr).2.byType sub.typ =
      lookupList r.byType sub.typ ++ [sub.ID] ∧
    lookupList (r.add sub sbr).2.byConnection sub.ConnectionID =
      lookupList r.byConnection sub.ConnectionID ++ [sub.ID] :=
  fun r sub sbr => ⟨rfl, mapLookup_mapInsert_self _ _ _,
    lookupList_mapInsert_self _ _ _, lookupList_mapInsert_self _ _ _⟩
